import Mathlib

/-
Verification development for the api-integration-framework repository.

Shallow embedding of the resilient HTTP request layer
(src/services/http_client.py: CircuitBreaker, RateLimiter,
IntegrationHttpClient.request), the process-wide configuration
(src/core/config.py: Settings), and the workflow step-execution engine
(src/services/workflow_engine.py: StepType, ExecutionStatus, StepResult,
WorkflowEngine.execute_workflow and its helpers).

Conventions of the embedding:
- timestamps (datetime.utcnow()) are rational numbers of seconds, passed
  explicitly to every operation that reads the clock;
- Python dict-valued payloads are association lists of a small JSON-like
  value type;
- Python exceptions escaping a call are the Except.error channel, carrying
  the exception message; exceptions caught inside a function never reach
  that channel;
- the network is an oracle mapping the attempt index to the outcome the
  transport would produce for that attempt.
-/

/-- Embedding of src/core/config.py, class Settings: the tunable fields the
core reads, with the source's default values. -/
structure Settings where
  default_rate_limit : Nat := 100
  rate_limit_window : Nat := 60
  default_max_retries : Nat := 3
  default_retry_delay : Nat := 5
  exponential_backoff : Bool := true
  circuit_breaker_threshold : Nat := 5
  circuit_breaker_timeout : Nat := 30
deriving DecidableEq, Repr

/-- Embedding of the module-level `settings = Settings()` instance. -/
def settings : Settings := {}

/-- Embedding of src/services/http_client.py, enum CircuitState. -/
inductive CircuitState
  | closed
  | open_
  | half_open
deriving DecidableEq, Repr

/-- Embedding of src/services/http_client.py, dataclass CircuitBreaker. -/
structure CircuitBreaker where
  failure_count : Nat := 0
  last_failure_time : Option ℚ := none
  state : CircuitState := CircuitState.closed
deriving DecidableEq, Repr

/-- CircuitBreaker.record_success: reset the count, close the breaker. -/
def CircuitBreaker.record_success (cb : CircuitBreaker) : CircuitBreaker :=
  { cb with failure_count := 0, state := CircuitState.closed }

/-- CircuitBreaker.record_failure: increment the count, stamp the failure
time, and open the breaker when the count reaches the threshold. -/
def CircuitBreaker.record_failure (s : Settings) (cb : CircuitBreaker) (now : ℚ) :
    CircuitBreaker :=
  let fc := cb.failure_count + 1
  { failure_count := fc
    last_failure_time := some now
    state := if s.circuit_breaker_threshold ≤ fc then CircuitState.open_ else cb.state }

/-- CircuitBreaker.can_execute: returns the mutated breaker together with the
boolean the method returns. Closed admits; Open admits (moving to HalfOpen)
only once the cooldown has strictly elapsed since the last failure; HalfOpen
admits. -/
def CircuitBreaker.can_execute (s : Settings) (cb : CircuitBreaker) (now : ℚ) :
    CircuitBreaker × Bool :=
  match cb.state with
  | CircuitState.closed => (cb, true)
  | CircuitState.open_ =>
    match cb.last_failure_time with
    | some t =>
      if (s.circuit_breaker_timeout : ℚ) < now - t then
        ({ cb with state := CircuitState.half_open }, true)
      else
        (cb, false)
    | none => (cb, false)
  | CircuitState.half_open => (cb, true)

/-- Embedding of src/services/http_client.py, class RateLimiter. -/
structure RateLimiter where
  rate : ℚ
  window : ℚ
  tokens : ℚ
  last_update : ℚ
deriving DecidableEq, Repr

/-- RateLimiter.__init__: tokens start at the full rate, the refill clock at
the construction instant. -/
def RateLimiter.init (rate window now : ℚ) : RateLimiter :=
  { rate := rate, window := window, tokens := rate, last_update := now }

/-- RateLimiter.acquire: refill proportionally to the elapsed time, capped at
the rate; debit one token and answer true when at least one is available. -/
def RateLimiter.acquire (rl : RateLimiter) (now : ℚ) : RateLimiter × Bool :=
  let elapsed := now - rl.last_update
  let tokens := min rl.rate (rl.tokens + elapsed * (rl.rate / rl.window))
  if 1 ≤ tokens then
    ({ rl with tokens := tokens - 1, last_update := now }, true)
  else
    ({ rl with tokens := tokens, last_update := now }, false)

/-- Summary dictionary returned by IntegrationHttpClient.request on success
(status_code, headers, body). -/
structure ResponseSummary where
  status_code : Nat
  headers : List (String × String)
  body : Option (List (String × String))
deriving DecidableEq, Repr

/-- Outcome the transport produces for one attempt of the retry loop: either
a successful response summary, or the message of the exception raised by the
transport or by raise_for_status. -/
inductive AttemptOutcome
  | success (resp : ResponseSummary)
  | failure (e : String)
deriving DecidableEq, Repr

/-- The backoff delay slept after a failed attempt (0-indexed) when further
attempts remain: default_retry_delay doubled per attempt when exponential
backoff is enabled, flat otherwise. -/
def retryDelay (s : Settings) (attempt : Nat) : Nat :=
  if s.exponential_backoff then s.default_retry_delay * 2 ^ attempt
  else s.default_retry_delay

/-- What one run of the attempt loop of IntegrationHttpClient.request did:
final breaker state, number of attempts issued, the delays slept between
attempts, and the result (ok summary, or the escaping exception message). -/
structure LoopOutcome where
  breaker : CircuitBreaker
  attempts : Nat
  sleeps : List Nat
  result : Except String ResponseSummary
deriving Repr

/-- Embedding of the `for attempt in range(max_retries + 1)` loop of
IntegrationHttpClient.request. `fuel` is the number of attempts the loop has
left, `attempt` the 0-indexed attempt counter. On success: record_success and
return the summary at once. On failure: record_failure; sleep the backoff
delay when attempts remain, else end the loop and re-raise the last
exception. The fuel-0 case is unreachable from request, which always starts
the loop with fuel max_retries + 1 ≥ 1 (it mirrors `raise last_exception`
with last_exception still None). -/
def attemptLoop (s : Settings) (oracle : Nat → AttemptOutcome) (now : ℚ) :
    Nat → Nat → CircuitBreaker → LoopOutcome
  | 0, _, cb => ⟨cb, 0, [], Except.error ""⟩
  | fuel + 1, attempt, cb =>
    match oracle attempt with
    | AttemptOutcome.success resp =>
      ⟨cb.record_success, 1, [], Except.ok resp⟩
    | AttemptOutcome.failure e =>
      let cb1 := cb.record_failure s now
      match fuel with
      | 0 => ⟨cb1, 1, [], Except.error e⟩
      | fuel1 + 1 =>
        let rest := attemptLoop s oracle now (fuel1 + 1) (attempt + 1) cb1
        ⟨rest.breaker, rest.attempts + 1, retryDelay s attempt :: rest.sleeps, rest.result⟩

/-- Embedding of `max_retries = retries or settings.default_max_retries`
(line 119): Python treats both None and 0 as falsy, so an explicit 0 falls
back to the configured default. -/
def resolveRetries (s : Settings) (retries : Option Nat) : Nat :=
  match retries with
  | none => s.default_max_retries
  | some r => if r = 0 then s.default_max_retries else r

/-- What one call of IntegrationHttpClient.request did for one connector:
final breaker and limiter states, attempts issued, delays slept, and the
result (ok summary, or the message of the escaping exception). -/
structure RequestRun where
  breaker : CircuitBreaker
  limiter : RateLimiter
  attempts : Nat
  sleeps : List Nat
  result : Except String ResponseSummary
deriving Repr

/-- Embedding of IntegrationHttpClient.request for one connector, over the
connector's circuit breaker and rate limiter (the per-connector instances
the registry helpers _get_circuit_breaker/_get_rate_limiter resolve). The
breaker gate raises first, then the limiter gate, then the attempt loop runs
max_retries + 1 times at most. -/
def IntegrationHttpClient.request (s : Settings) (connector_id : String)
    (oracle : Nat → AttemptOutcome) (cb : CircuitBreaker) (rl : RateLimiter)
    (now : ℚ) (retries : Option Nat) : RequestRun :=
  let ce := cb.can_execute s now
  if ce.2 = false then
    ⟨ce.1, rl, 0, [], Except.error ("Circuit breaker open for connector " ++ connector_id)⟩
  else
    let acq := rl.acquire now
    if acq.2 = false then
      ⟨ce.1, acq.1, 0, [], Except.error ("Rate limit exceeded for connector " ++ connector_id)⟩
    else
      let mr := resolveRetries s retries
      let lo := attemptLoop s oracle now (mr + 1) 0 ce.1
      ⟨lo.breaker, acq.1, lo.attempts, lo.sleeps, lo.result⟩

/-- Small JSON-like value type for the dict-valued payloads the engine
handles (step config entries and step outputs). -/
inductive JValue
  | s (v : String)
  | b (v : Bool)
  | q (v : ℚ)
deriving DecidableEq, Repr

/-- A Python dict with string keys, as an association list. -/
abbrev JObject := List (String × JValue)

/-- Embedding of src/services/workflow_engine.py, enum StepType, as the
partial parse Python's `StepType(value)` performs: none models the
ValueError the enum constructor raises on an undeclared value. -/
inductive StepType
  | http_request
  | transform
  | condition
  | loop
  | parallel
  | delay
deriving DecidableEq, Repr

/-- `StepType(step.get("type"))`: map the raw value to the declared member,
or none when the constructor would raise ValueError. -/
def StepType.ofValue : Option String → Option StepType
  | some "http_request" => some StepType.http_request
  | some "transform" => some StepType.transform
  | some "condition" => some StepType.condition
  | some "loop" => some StepType.loop
  | some "parallel" => some StepType.parallel
  | some "delay" => some StepType.delay
  | _ => none

/-- Message of the ValueError raised by `StepType(value)` on an undeclared
value. -/
def valueErrorMsg : Option String → String
  | some t => t ++ " is not a valid StepType"
  | none => "None is not a valid StepType"

/-- Embedding of src/services/workflow_engine.py, enum ExecutionStatus. -/
inductive ExecutionStatus
  | pending
  | running
  | completed
  | failed
  | cancelled
deriving DecidableEq, Repr

/-- The `.value` string of an ExecutionStatus member. -/
def statusValue : ExecutionStatus → String
  | ExecutionStatus.pending => "pending"
  | ExecutionStatus.running => "running"
  | ExecutionStatus.completed => "completed"
  | ExecutionStatus.failed => "failed"
  | ExecutionStatus.cancelled => "cancelled"

/-- Embedding of dataclass StepResult. -/
structure StepResult where
  step_id : Option String
  status : ExecutionStatus
  output : Option JObject := none
  error : Option String := none
  started_at : Option ℚ := none
  completed_at : Option ℚ := none
deriving DecidableEq, Repr

/-- One step dict of workflow_config["steps"]: the keys _execute_step reads
via step.get. -/
structure StepDef where
  id : Option String := none
  type : Option String := none
  config : JObject := []
deriving DecidableEq, Repr

/-- The workflow_config dict as execute_workflow reads it: the "steps" list
and the optional "error_handling" dict with its optional "stop_on_error"
key. -/
structure WorkflowConfig where
  steps : List StepDef := []
  error_handling : Option (Option Bool) := none
deriving DecidableEq, Repr

/-- `workflow_config.get("error_handling", {}).get("stop_on_error", True)`:
a missing error_handling dict and a missing stop_on_error key both default
to true. -/
def WorkflowConfig.stop_on_error (wc : WorkflowConfig) : Bool :=
  match wc.error_handling with
  | none => true
  | some v => v.getD true

/-- Outcome of the delay handler body: `config.get("seconds", 0)` then
`await asyncio.sleep(delay_seconds)`; a non-numeric seconds value makes
asyncio.sleep raise a TypeError, which the caller's try block catches. -/
def delayOutcome (config : JObject) : Except String JValue :=
  match config.lookup "seconds" with
  | none => Except.ok (JValue.q 0)
  | some (JValue.q v) => Except.ok (JValue.q v)
  | some (JValue.b v) => Except.ok (JValue.b v)
  | some (JValue.s _) => Except.error "TypeError: seconds must be a number"

/-- Embedding of WorkflowEngine._execute_step. The StepType parse happens
before the try block, so an undeclared kind raises ValueError out of the
method (Except.error). Inside the try block the handlers run: http_request,
transform and condition are implementation placeholders returning fixed
dicts, delay sleeps, and every other declared kind (loop, parallel) falls
into the `else` branch with output {}. A handler exception is caught and
recorded as a Failed result; otherwise the result is Completed with the
handler output. -/
def executeStep (step : StepDef) (now : ℚ) : Except String StepResult :=
  match StepType.ofValue step.type with
  | none => Except.error (valueErrorMsg step.type)
  | some ty =>
    let outcome : Except String JObject :=
      match ty with
      | StepType.http_request => Except.ok [("response", JValue.s "placeholder")]
      | StepType.transform => Except.ok [("transformed", JValue.b true)]
      | StepType.condition => Except.ok [("branch", JValue.s "default")]
      | StepType.delay => (delayOutcome step.config).map fun v => [("delayed_seconds", v)]
      | StepType.loop => Except.ok []
      | StepType.parallel => Except.ok []
    match outcome with
    | Except.ok out =>
      Except.ok ⟨step.id, ExecutionStatus.completed, some out, none, some now, some now⟩
    | Except.error e =>
      Except.ok ⟨step.id, ExecutionStatus.failed, none, some e, some now, some now⟩

/-- Embedding of the step loop of WorkflowEngine.execute_workflow: execute
each step in list order, append its result, and stop after a Failed result
when stop_on_error holds; an exception escaping _execute_step aborts the
whole call (Except.error). -/
def runSteps (stop : Bool) (now : ℚ) : List StepDef → Except String (List StepResult)
  | [] => Except.ok []
  | st :: rest =>
    match executeStep st now with
    | Except.error e => Except.error e
    | Except.ok r =>
      if r.status = ExecutionStatus.failed ∧ stop = true then Except.ok [r]
      else
        match runSteps stop now rest with
        | Except.error e => Except.error e
        | Except.ok rs => Except.ok (r :: rs)

/-- Embedding of WorkflowEngine._determine_final_status over the recorded
step results. -/
def determine_final_status (rs : List StepResult) : String :=
  if rs.any fun r => decide (r.status = ExecutionStatus.failed) then "failed"
  else if rs.all fun r => decide (r.status = ExecutionStatus.completed) then "completed"
  else "partial"

/-- One entry of the step_results list of the returned report: the dict
built from a StepResult, with the status rendered as its `.value` string. -/
structure StepResultView where
  step_id : Option String
  status : String
  output : Option JObject
  error : Option String
deriving DecidableEq, Repr

/-- Render a StepResult as its report dict. -/
def StepResult.toView (r : StepResult) : StepResultView :=
  ⟨r.step_id, statusValue r.status, r.output, r.error⟩

/-- The report dict WorkflowEngine.execute_workflow returns. -/
structure WorkflowReport where
  execution_id : String
  status : String
  step_results : List StepResultView
deriving DecidableEq, Repr

/-- Embedding of WorkflowEngine.execute_workflow: run the steps in order
under the configured error policy, then aggregate. An exception escaping a
step's dispatch propagates out of the call (Except.error): in that case no
report is returned. input_data is stored in the context but never read by
the current handlers. -/
def execute_workflow (_workflow_id : String) (wc : WorkflowConfig)
    (_input_data : JObject) (now : ℚ) : Except String WorkflowReport :=
  match runSteps wc.stop_on_error now wc.steps with
  | Except.error e => Except.error e
  | Except.ok rs =>
    Except.ok ⟨"exec_" ++ toString now, determine_final_status rs, rs.map StepResult.toView⟩

/-- One operation applied to a circuit breaker, with the clock instant it
observes where the source reads datetime.utcnow(). -/
inductive BreakerOp
  | record_success_op
  | record_failure_op (now : ℚ)
  | can_execute_op (now : ℚ)
deriving DecidableEq, Repr

/-- Apply one operation to a breaker (the boolean a can_execute call returns
is discarded; its state mutation is kept). -/
def BreakerOp.apply (s : Settings) (cb : CircuitBreaker) : BreakerOp → CircuitBreaker
  | BreakerOp.record_success_op => cb.record_success
  | BreakerOp.record_failure_op now => cb.record_failure s now
  | BreakerOp.can_execute_op now => (cb.can_execute s now).1

/-- Run a sequence of operations against a breaker. -/
def runBreaker (s : Settings) (cb : CircuitBreaker) : List BreakerOp → CircuitBreaker
  | [] => cb
  | op :: rest => runBreaker s (BreakerOp.apply s cb op) rest

/-- Number of record_failure calls since the last record_success of the
sequence (starting from a given count). -/
def failuresSince (start : Nat) : List BreakerOp → Nat
  | [] => start
  | BreakerOp.record_success_op :: rest => failuresSince 0 rest
  | BreakerOp.record_failure_op _ :: rest => failuresSince (start + 1) rest
  | BreakerOp.can_execute_op _ :: rest => failuresSince start rest

/-- The operation's clock instant lies in [0, cooldown], so no cooldown can
have elapsed since any failure recorded at an instant in that range. -/
def opWithinCooldown (s : Settings) : BreakerOp → Prop
  | BreakerOp.record_success_op => True
  | BreakerOp.record_failure_op t => 0 ≤ t ∧ t ≤ (s.circuit_breaker_timeout : ℚ)
  | BreakerOp.can_execute_op t => 0 ≤ t ∧ t ≤ (s.circuit_breaker_timeout : ℚ)

/-- Inductive invariant of a breaker driven, before any cooldown can have
elapsed, from the fresh state: it is Open exactly when the failure count has
reached the threshold, it is never HalfOpen, and any stamped failure time is
non-negative. -/
def breakerInv (s : Settings) (cb : CircuitBreaker) : Prop :=
  (cb.state = CircuitState.open_ ↔ s.circuit_breaker_threshold ≤ cb.failure_count) ∧
  cb.state ≠ CircuitState.half_open ∧
  (∀ t, cb.last_failure_time = some t → 0 ≤ t)

/-- The count lower bound of a non-Closed breaker: Open or HalfOpen implies
the failure count reached the threshold. -/
def breakerCountLB (s : Settings) (cb : CircuitBreaker) : Prop :=
  (cb.state = CircuitState.open_ ∨ cb.state = CircuitState.half_open) →
    s.circuit_breaker_threshold ≤ cb.failure_count

/-- C1: an undeclared step kind is parsed by `StepType(step.get("type"))`
before the try block of _execute_step, so the ValueError it raises escapes
execute_workflow: the call raises instead of returning a terminal report
with a Failed StepResult for that step. -/
theorem c1_unknown_kind_escapes_engine :
    execute_workflow "wf" ⟨[⟨some "s1", some "bogus", []⟩], none⟩ [] 0 =
      Except.error "bogus is not a valid StepType" := rfl

/-- C3: the HttpRequest handler _execute_http_request is an implementation
placeholder: for every step id, config and instant it completes with the
fixed output dict. It never delegates to the resilient client
(IntegrationHttpClient.request) and its output is not a summary of any HTTP
response actually obtained. -/
theorem c3_http_step_is_placeholder (sid : Option String) (config : JObject) (now : ℚ) :
    executeStep ⟨sid, some "http_request", config⟩ now =
      Except.ok ⟨sid, ExecutionStatus.completed,
        some [("response", JValue.s "placeholder")], none, some now, some now⟩ := rfl

/-- C4: steps of kind loop and parallel fall into the silent `else` branch of
_execute_step: for every step id, config and instant they complete with
status Completed and empty output {}, a quiet no-op rather than an explicit
unsupported-kind error producing a Failed StepResult. -/
theorem c4_loop_parallel_silent_noop (sid : Option String) (config : JObject) (now : ℚ) :
    executeStep ⟨sid, some "loop", config⟩ now =
      Except.ok ⟨sid, ExecutionStatus.completed, some [], none, some now, some now⟩ ∧
    executeStep ⟨sid, some "parallel", config⟩ now =
      Except.ok ⟨sid, ExecutionStatus.completed, some [], none, some now, some now⟩ :=
  ⟨rfl, rfl⟩

/-- C9: RateLimiter.acquire is a continuous-time token bucket: the refill is
capped at the capacity on every call (first conjunct), and concretely a
limiter of capacity 2 over a 60-second window acquired three times at the
same instant yields true, true, false, while a fourth acquire 30 seconds
later succeeds again (one token refilled: 30 × 2/60 = 1). -/
theorem c9_rate_limiter_token_bucket :
    (∀ (rl : RateLimiter) (now : ℚ), ((rl.acquire now).1).tokens ≤ rl.rate) ∧
    (((RateLimiter.init 2 60 0).acquire 0).2 = true) ∧
    ((((RateLimiter.init 2 60 0).acquire 0).1.acquire 0).2 = true) ∧
    (((((RateLimiter.init 2 60 0).acquire 0).1.acquire 0).1.acquire 0).2 = false) ∧
    ((((((RateLimiter.init 2 60 0).acquire 0).1.acquire 0).1.acquire 0).1.acquire 30).2 = true) := by
  have h1 : (RateLimiter.init 2 60 0).acquire 0 = (⟨2, 60, 1, 0⟩, true) := by
    norm_num [RateLimiter.init, RateLimiter.acquire]
  have h2 : RateLimiter.acquire ⟨2, 60, 1, 0⟩ 0 = (⟨2, 60, 0, 0⟩, true) := by
    norm_num [RateLimiter.acquire]
  have h3 : RateLimiter.acquire ⟨2, 60, 0, 0⟩ 0 = (⟨2, 60, 0, 0⟩, false) := by
    norm_num [RateLimiter.acquire]
  have h4 : RateLimiter.acquire ⟨2, 60, 0, 0⟩ 30 = (⟨2, 60, 0, 30⟩, true) := by
    norm_num [RateLimiter.acquire]
  refine ⟨?_, ?_, ?_, ?_, ?_⟩
  · intro rl now
    by_cases h : (1 : ℚ) ≤ min rl.rate (rl.tokens + (now - rl.last_update) * (rl.rate / rl.window))
    · have hm := min_le_left rl.rate (rl.tokens + (now - rl.last_update) * (rl.rate / rl.window))
      simp only [RateLimiter.acquire, if_pos h]
      linarith
    · have hm := min_le_left rl.rate (rl.tokens + (now - rl.last_update) * (rl.rate / rl.window))
      simp only [RateLimiter.acquire, if_neg h]
      exact hm
  · simp only [h1]
  · simp only [h1, h2]
  · simp only [h1, h2, h3]
  · simp only [h1, h2, h3, h4]

/-- C10: since line 119 resolves the retry budget with
`retries or settings.default_max_retries`, an explicit retries = 0 is falsy
and falls back to the default of 3, so a call with retries = 0 on a
persistently failing target performs 4 attempts, not 1, and ends by raising
the final attempt's error. -/
theorem c10_retries_zero_is_unset :
    resolveRetries settings (some 0) = settings.default_max_retries ∧
    (IntegrationHttpClient.request settings "svc" (fun _ => AttemptOutcome.failure "connect timeout")
        {} (RateLimiter.init 100 60 0) 0 (some 0)).attempts = 4 ∧
    ¬ (IntegrationHttpClient.request settings "svc" (fun _ => AttemptOutcome.failure "connect timeout")
        {} (RateLimiter.init 100 60 0) 0 (some 0)).attempts = 1 ∧
    (IntegrationHttpClient.request settings "svc" (fun _ => AttemptOutcome.failure "connect timeout")
        {} (RateLimiter.init 100 60 0) 0 (some 0)).result = Except.error "connect timeout" := by
  have hacq : (RateLimiter.init 100 60 0).acquire 0 = (⟨100, 60, 99, 0⟩, true) := by
    norm_num [RateLimiter.init, RateLimiter.acquire]
  refine ⟨rfl, ?_, ?_, ?_⟩ <;>
    · simp only [IntegrationHttpClient.request, hacq]
      first
      | rfl
      | decide

/-- On a persistently failing oracle the attempt loop, started with fuel
attempts remaining at a given 0-indexed attempt counter, issues exactly fuel
attempts, ends with the error of its final attempt, and sleeps the backoff
delay of each attempt but the last. -/
theorem attemptLoop_all_failures (s : Settings) (errs : Nat → String) (now : ℚ) :
    ∀ (fuel a : Nat) (cb : CircuitBreaker),
      (attemptLoop s (fun k => AttemptOutcome.failure (errs k)) now (fuel + 1) a cb).attempts
          = fuel + 1 ∧
      (attemptLoop s (fun k => AttemptOutcome.failure (errs k)) now (fuel + 1) a cb).result
          = Except.error (errs (a + fuel)) ∧
      (attemptLoop s (fun k => AttemptOutcome.failure (errs k)) now (fuel + 1) a cb).sleeps
          = (List.range fuel).map fun i => retryDelay s (a + i) := by
  intro fuel
  induction fuel with
  | zero =>
    intro a cb
    refine ⟨rfl, by simp [attemptLoop], by simp [attemptLoop]⟩
  | succ n ih =>
    intro a cb
    obtain ⟨iha, ihr, ihs⟩ := ih (a + 1) (cb.record_failure s now)
    refine ⟨?_, ?_, ?_⟩
    · show (attemptLoop s (fun k => AttemptOutcome.failure (errs k)) now (n + 1) (a + 1)
          (cb.record_failure s now)).attempts + 1 = n + 1 + 1
      rw [iha]
    · show (attemptLoop s (fun k => AttemptOutcome.failure (errs k)) now (n + 1) (a + 1)
          (cb.record_failure s now)).result = Except.error (errs (a + (n + 1)))
      rw [ihr]
      have : a + 1 + n = a + (n + 1) := by omega
      rw [this]
    · show retryDelay s a :: (attemptLoop s (fun k => AttemptOutcome.failure (errs k)) now
          (n + 1) (a + 1) (cb.record_failure s now)).sleeps
          = (List.range (n + 1)).map fun i => retryDelay s (a + i)
      rw [ihs, List.range_succ_eq_map, List.map_cons, List.map_map]
      have harg : a + 0 = a := by omega
      rw [harg]
      have hfun : ((fun i => retryDelay s (a + i)) ∘ Nat.succ) = fun i => retryDelay s (a + 1 + i) := by
        funext i
        show retryDelay s (a + Nat.succ i) = retryDelay s (a + 1 + i)
        have : a + Nat.succ i = a + 1 + i := by omega
        rw [this]
      rw [hfun]

/-- C2: on a target whose attempts all fail, a request whose retry budget
resolves to n performs exactly n + 1 attempts and ends by raising the final
attempt's error; the sleeps between consecutive attempts are
base_delay × 2^k for the k-th (0-indexed) failed attempt when exponential
backoff is enabled, else a flat base_delay each time. -/
theorem c2_retry_exhaustion (s : Settings) (cid : String) (errs : Nat → String)
    (cb : CircuitBreaker) (rl : RateLimiter) (now : ℚ) (retries : Option Nat) (n : Nat)
    (hres : resolveRetries s retries = n)
    (hcb : (cb.can_execute s now).2 = true)
    (hrl : (rl.acquire now).2 = true) :
    (IntegrationHttpClient.request s cid (fun k => AttemptOutcome.failure (errs k))
        cb rl now retries).attempts = n + 1 ∧
    (IntegrationHttpClient.request s cid (fun k => AttemptOutcome.failure (errs k))
        cb rl now retries).result = Except.error (errs n) ∧
    (s.exponential_backoff = true →
      (IntegrationHttpClient.request s cid (fun k => AttemptOutcome.failure (errs k))
          cb rl now retries).sleeps
        = (List.range n).map fun k => s.default_retry_delay * 2 ^ k) ∧
    (s.exponential_backoff = false →
      (IntegrationHttpClient.request s cid (fun k => AttemptOutcome.failure (errs k))
          cb rl now retries).sleeps
        = List.replicate n s.default_retry_delay) := by
  have h1 : ¬ ((cb.can_execute s now).2 = false) := by simp [hcb]
  have h2 : ¬ ((rl.acquire now).2 = false) := by simp [hrl]
  obtain ⟨ha, hr, hs⟩ :=
    attemptLoop_all_failures s errs now n 0 (cb.can_execute s now).1
  have hzero : ∀ i : Nat, 0 + i = i := fun i => by omega
  refine ⟨?_, ?_, ?_, ?_⟩
  · simp only [IntegrationHttpClient.request, if_neg h1, if_neg h2, hres]
    exact ha
  · simp only [IntegrationHttpClient.request, if_neg h1, if_neg h2, hres]
    rw [hr, hzero n]
  · intro hexp
    simp only [IntegrationHttpClient.request, if_neg h1, if_neg h2, hres]
    rw [hs]
    apply List.map_congr_left
    intro i _
    rw [hzero i, retryDelay, if_pos hexp]
  · intro hexp
    simp only [IntegrationHttpClient.request, if_neg h1, if_neg h2, hres]
    rw [hs]
    have : ∀ i ∈ List.range n, retryDelay s (0 + i) = s.default_retry_delay := by
      intro i _
      rw [hzero i, retryDelay, if_neg (by simp [hexp])]
    rw [List.map_congr_left this]
    simp [List.eq_replicate_iff]

/-- Witness for c2_retry_exhaustion: default settings, a fresh breaker and a
fresh limiter, retry budget 3: four attempts, the last attempt's error
raised, sleeps 5, 10, 20 seconds. -/
theorem c2_retry_exhaustion_witness :
    (IntegrationHttpClient.request settings "api" (fun k => AttemptOutcome.failure ("err" ++ toString k))
        {} (RateLimiter.init 100 60 0) 0 (some 3)).attempts = 4 ∧
    (IntegrationHttpClient.request settings "api" (fun k => AttemptOutcome.failure ("err" ++ toString k))
        {} (RateLimiter.init 100 60 0) 0 (some 3)).result = Except.error "err3" ∧
    (IntegrationHttpClient.request settings "api" (fun k => AttemptOutcome.failure ("err" ++ toString k))
        {} (RateLimiter.init 100 60 0) 0 (some 3)).sleeps = [5, 10, 20] := by
  have hrl : ((RateLimiter.init 100 60 0).acquire 0).2 = true := by
    norm_num [RateLimiter.init, RateLimiter.acquire]
  have h := c2_retry_exhaustion settings "api" (fun k => "err" ++ toString k)
    {} (RateLimiter.init 100 60 0) 0 (some 3) 3 rfl rfl hrl
  refine ⟨h.1, h.2.1, ?_⟩
  have hs := h.2.2.1 rfl
  rw [hs]
  rfl

/-- can_execute never changes the failure count or the stamped failure
time. -/
theorem can_execute_fields (s : Settings) (cb : CircuitBreaker) (now : ℚ) :
    ((cb.can_execute s now).1).failure_count = cb.failure_count ∧
    ((cb.can_execute s now).1).last_failure_time = cb.last_failure_time := by
  obtain ⟨fc, lf, st⟩ := cb
  unfold CircuitBreaker.can_execute
  cases st with
  | closed => exact ⟨rfl, rfl⟩
  | half_open => exact ⟨rfl, rfl⟩
  | open_ =>
    cases lf with
    | none => exact ⟨rfl, rfl⟩
    | some u =>
      dsimp only
      split
      · exact ⟨rfl, rfl⟩
      · exact ⟨rfl, rfl⟩

/-- The fresh breaker satisfies the inductive invariant. -/
theorem breakerInv_init (s : Settings) (hthr : 1 ≤ s.circuit_breaker_threshold) :
    breakerInv s {} := by
  refine ⟨⟨fun h => absurd h (by simp),
    fun h => absurd (show s.circuit_breaker_threshold ≤ 0 from h) (by omega)⟩, by simp, ?_⟩
  intro t ht
  simp at ht

/-- One operation whose clock instant lies within the cooldown window
preserves the inductive invariant. -/
theorem breakerInv_step (s : Settings) (hthr : 1 ≤ s.circuit_breaker_threshold)
    (cb : CircuitBreaker) (op : BreakerOp) (hop : opWithinCooldown s op)
    (hinv : breakerInv s cb) : breakerInv s (BreakerOp.apply s cb op) := by
  obtain ⟨hiff, hhalf, htime⟩ := hinv
  cases op with
  | record_success_op =>
    refine ⟨⟨fun h => absurd h (by simp [BreakerOp.apply, CircuitBreaker.record_success]),
      fun h => absurd (show s.circuit_breaker_threshold ≤ 0 from h) (by omega)⟩,
      by simp [BreakerOp.apply, CircuitBreaker.record_success], ?_⟩
    intro t ht
    exact htime t ht
  | record_failure_op t =>
    simp only [opWithinCooldown] at hop
    simp only [BreakerOp.apply, CircuitBreaker.record_failure]
    by_cases hfc : s.circuit_breaker_threshold ≤ cb.failure_count + 1
    · rw [if_pos hfc]
      refine ⟨⟨fun _ => hfc, fun _ => rfl⟩, by simp, ?_⟩
      intro u hu
      simp only [Option.some.injEq] at hu
      rw [← hu]
      exact hop.1
    · rw [if_neg hfc]
      refine ⟨⟨fun h => absurd (hiff.mp h) (by omega), fun h => absurd h hfc⟩, hhalf, ?_⟩
      intro u hu
      simp only [Option.some.injEq] at hu
      rw [← hu]
      exact hop.1
  | can_execute_op t =>
    simp only [opWithinCooldown] at hop
    obtain ⟨fc, lf, st⟩ := cb
    simp only [BreakerOp.apply]
    cases st with
    | closed => exact ⟨hiff, hhalf, htime⟩
    | half_open => exact absurd rfl hhalf
    | open_ =>
      cases lf with
      | none => exact ⟨hiff, hhalf, htime⟩
      | some u =>
        have hu : (0 : ℚ) ≤ u := htime u rfl
        have hne : ¬ ((s.circuit_breaker_timeout : ℚ) < t - u) := by
          push_neg
          linarith [hop.1, hop.2]
        simp only [CircuitBreaker.can_execute]
        rw [if_neg hne]
        exact ⟨hiff, hhalf, htime⟩

/-- The inductive invariant is preserved along a whole trace of operations
that all happen within the cooldown window. -/
theorem breakerInv_run (s : Settings) (hthr : 1 ≤ s.circuit_breaker_threshold) :
    ∀ (trace : List BreakerOp) (cb : CircuitBreaker),
      (∀ op ∈ trace, opWithinCooldown s op) → breakerInv s cb →
      breakerInv s (runBreaker s cb trace) := by
  intro trace
  induction trace with
  | nil => intro cb _ h; exact h
  | cons op rest ih =>
    intro cb hops hinv
    exact ih (BreakerOp.apply s cb op)
      (fun o ho => hops o (List.mem_cons_of_mem op ho))
      (breakerInv_step s hthr cb op (hops op (List.mem_cons_self op rest)) hinv)

/-- The failure count after a trace equals the number of failures recorded
since the last success, with no condition on timing. -/
theorem runBreaker_failure_count (s : Settings) :
    ∀ (trace : List BreakerOp) (cb : CircuitBreaker),
      (runBreaker s cb trace).failure_count = failuresSince cb.failure_count trace := by
  intro trace
  induction trace with
  | nil => intro cb; rfl
  | cons op rest ih =>
    intro cb
    cases op with
    | record_success_op => exact ih cb.record_success
    | record_failure_op t => exact ih (cb.record_failure s t)
    | can_execute_op t =>
      have h := ih ((cb.can_execute s t).1)
      rw [(can_execute_fields s cb t).1] at h
      exact h

/-- One operation preserves the count lower bound, with no condition on
timing. -/
theorem breakerCountLB_step (s : Settings) (cb : CircuitBreaker) (op : BreakerOp)
    (h : breakerCountLB s cb) : breakerCountLB s (BreakerOp.apply s cb op) := by
  cases op with
  | record_success_op =>
    intro hst
    rcases hst with hst | hst <;>
      simp [BreakerOp.apply, CircuitBreaker.record_success] at hst
  | record_failure_op t =>
    intro hst
    by_cases hfc : s.circuit_breaker_threshold ≤ cb.failure_count + 1
    · exact hfc
    · simp only [BreakerOp.apply, CircuitBreaker.record_failure, if_neg hfc] at hst
      have := h hst
      omega
  | can_execute_op t =>
    intro hst
    obtain ⟨fc, lf, st⟩ := cb
    cases st with
    | closed =>
      rcases hst with hst | hst <;>
        simp [BreakerOp.apply, CircuitBreaker.can_execute] at hst
    | half_open => exact h (Or.inr rfl)
    | open_ =>
      cases lf with
      | none => exact h (Or.inl rfl)
      | some u =>
        have hfc : s.circuit_breaker_threshold ≤ fc := h (Or.inl rfl)
        show s.circuit_breaker_threshold ≤
          ((CircuitBreaker.can_execute s ⟨fc, some u, CircuitState.open_⟩ t).1).failure_count
        simp only [CircuitBreaker.can_execute]
        split
        · exact hfc
        · exact hfc

/-- The count lower bound is preserved along any trace. -/
theorem breakerCountLB_run (s : Settings) :
    ∀ (trace : List BreakerOp) (cb : CircuitBreaker),
      breakerCountLB s cb → breakerCountLB s (runBreaker s cb trace) := by
  intro trace
  induction trace with
  | nil => intro cb h; exact h
  | cons op rest ih =>
    intro cb h
    exact ih (BreakerOp.apply s cb op) (breakerCountLB_step s cb op h)

/-- C7: driving a fresh breaker through any sequence of record_success,
record_failure and can_execute calls (threshold positive): while no cooldown
can have elapsed, the breaker is Open — equivalently, can_execute returns
false — exactly when the number of failures recorded since the last success
has reached the threshold; and unconditionally, an Open state implies the
failure count is at least the threshold. -/
theorem c7_breaker_opens_iff_threshold (s : Settings) (trace : List BreakerOp)
    (hthr : 1 ≤ s.circuit_breaker_threshold) :
    ((∀ op ∈ trace, opWithinCooldown s op) →
      (((runBreaker s {} trace).state = CircuitState.open_ ↔
          s.circuit_breaker_threshold ≤ failuresSince 0 trace) ∧
        ∀ now : ℚ, 0 ≤ now → now ≤ (s.circuit_breaker_timeout : ℚ) →
          (((runBreaker s {} trace).can_execute s now).2 = false ↔
            s.circuit_breaker_threshold ≤ failuresSince 0 trace))) ∧
    ((runBreaker s {} trace).state = CircuitState.open_ →
      s.circuit_breaker_threshold ≤ (runBreaker s {} trace).failure_count) := by
  constructor
  · intro hops
    have hinv := breakerInv_run s hthr trace {} hops (breakerInv_init s hthr)
    obtain ⟨hiff, hhalf, htime⟩ := hinv
    have hcount : (runBreaker s {} trace).failure_count = failuresSince 0 trace :=
      runBreaker_failure_count s trace {}
    rw [hcount] at hiff
    refine ⟨hiff, ?_⟩
    intro now h0 hto
    cases hst : (runBreaker s {} trace).state with
    | closed =>
      have htrue : ((runBreaker s {} trace).can_execute s now).2 = true := by
        simp [CircuitBreaker.can_execute, hst]
      rw [htrue]
      constructor
      · intro hh
        simp at hh
      · intro hh
        have := hiff.mpr hh
        rw [hst] at this
        simp at this
    | half_open => exact absurd hst hhalf
    | open_ =>
      have hfail : s.circuit_breaker_threshold ≤ failuresSince 0 trace := hiff.mp hst
      refine ⟨fun _ => hfail, fun _ => ?_⟩
      cases hlf : (runBreaker s {} trace).last_failure_time with
      | none => simp [CircuitBreaker.can_execute, hst, hlf]
      | some u =>
        have hu : (0 : ℚ) ≤ u := htime u hlf
        have hne : ¬ ((s.circuit_breaker_timeout : ℚ) < now - u) := by
          push_neg
          linarith
        simp [CircuitBreaker.can_execute, hst, hlf, hne]
  · intro hop
    have hlb := breakerCountLB_run s trace {}
      (fun h => by rcases h with h | h <;> exact absurd h (by decide))
    exact hlb (Or.inl hop)

/-- Witness for c7_breaker_opens_iff_threshold: with the default threshold 5,
after 4 consecutive failures at instant 0 can_execute still answers true;
after the 5th it answers false and the breaker is Open. -/
theorem c7_breaker_opens_iff_threshold_witness :
    (((runBreaker settings {} (List.replicate 4 (BreakerOp.record_failure_op 0))).can_execute
        settings 0).2 = true) ∧
    (((runBreaker settings {} (List.replicate 5 (BreakerOp.record_failure_op 0))).can_execute
        settings 0).2 = false) ∧
    (runBreaker settings {} (List.replicate 5 (BreakerOp.record_failure_op 0))).state
      = CircuitState.open_ := by
  have hops : ∀ (n : Nat) (op : BreakerOp),
      op ∈ List.replicate n (BreakerOp.record_failure_op 0) →
        opWithinCooldown settings op := by
    intro n op hop
    have h := List.eq_of_mem_replicate hop
    subst h
    exact ⟨le_refl 0, Nat.cast_nonneg _⟩
  have h4 := c7_breaker_opens_iff_threshold settings
    (List.replicate 4 (BreakerOp.record_failure_op 0)) (by decide)
  have h5 := c7_breaker_opens_iff_threshold settings
    (List.replicate 5 (BreakerOp.record_failure_op 0)) (by decide)
  have h4b := (h4.1 (hops 4)).2 0 le_rfl (Nat.cast_nonneg _)
  have h5b := (h5.1 (hops 5)).2 0 le_rfl (Nat.cast_nonneg _)
  have h5s := (h5.1 (hops 5)).1
  refine ⟨?_, h5b.mpr (by decide), h5s.mpr (by decide)⟩
  cases hb : (((runBreaker settings {} (List.replicate 4 (BreakerOp.record_failure_op 0))).can_execute
      settings 0).2) with
  | false => exact absurd (h4b.mp hb) (by decide)
  | true => rfl

/-- A StepResult _execute_step returns (rather than raises) is terminal:
Completed on handler success, Failed on a caught handler exception. -/
theorem executeStep_status (st : StepDef) (now : ℚ) (r : StepResult)
    (h : executeStep st now = Except.ok r) :
    r.status = ExecutionStatus.completed ∨ r.status = ExecutionStatus.failed := by
  simp only [executeStep] at h
  split at h
  · simp at h
  · split at h
    · simp only [Except.ok.injEq] at h
      rw [← h]
      exact Or.inl rfl
    · simp only [Except.ok.injEq] at h
      rw [← h]
      exact Or.inr rfl

/-- Rendering a status as its value string: equality with "failed"
characterizes the Failed status. -/
theorem statusValue_failed (st : ExecutionStatus) :
    statusValue st = "failed" ↔ st = ExecutionStatus.failed := by
  cases st <;> decide

/-- Rendering a status as its value string: equality with "completed"
characterizes the Completed status. -/
theorem statusValue_completed (st : ExecutionStatus) :
    statusValue st = "completed" ↔ st = ExecutionStatus.completed := by
  cases st <;> decide

/-- Rendering a status as its value string: equality with "cancelled"
characterizes the Cancelled status. -/
theorem statusValue_cancelled (st : ExecutionStatus) :
    statusValue st = "cancelled" ↔ st = ExecutionStatus.cancelled := by
  cases st <;> decide

/-- Every result the step loop records is terminal: Completed or Failed. -/
theorem runSteps_status (stop : Bool) (now : ℚ) :
    ∀ (steps : List StepDef) (rs : List StepResult),
      runSteps stop now steps = Except.ok rs →
      ∀ r ∈ rs, r.status = ExecutionStatus.completed ∨ r.status = ExecutionStatus.failed := by
  intro steps
  induction steps with
  | nil =>
    intro rs h r hr
    simp only [runSteps, Except.ok.injEq] at h
    rw [← h] at hr
    cases hr
  | cons st rest ih =>
    intro rs h r hr
    simp only [runSteps] at h
    cases hex : executeStep st now with
    | error e => rw [hex] at h; simp at h
    | ok r0 =>
      rw [hex] at h
      dsimp only at h
      by_cases hc : r0.status = ExecutionStatus.failed ∧ stop = true
      · rw [if_pos hc] at h
        simp only [Except.ok.injEq] at h
        rw [← h] at hr
        rcases List.mem_singleton.mp hr with hr0
        rw [hr0]
        exact Or.inr hc.1
      · rw [if_neg hc] at h
        cases hrest : runSteps stop now rest with
        | error e => rw [hrest] at h; simp at h
        | ok rs1 =>
          rw [hrest] at h
          dsimp only at h
          simp only [Except.ok.injEq] at h
          rw [← h] at hr
          rcases List.mem_cons.mp hr with hr0 | hr1
          · rw [hr0]
            exact executeStep_status st now r0 hex
          · exact ih rs1 hrest r hr1

/-- C5: WorkflowEngine has no cancellation path: whenever execute_workflow
returns a report, every entry of its step_results carries status "completed"
or "failed" — never "cancelled". There is no companion cancel operation on
the engine, so no run can have its remaining steps marked Cancelled. -/
theorem c5_no_cancelled_step_results (wf : String) (wc : WorkflowConfig)
    (input : JObject) (now : ℚ) (rep : WorkflowReport)
    (h : execute_workflow wf wc input now = Except.ok rep) :
    ∀ v ∈ rep.step_results,
      (v.status = "completed" ∨ v.status = "failed") ∧ v.status ≠ "cancelled" := by
  intro v hv
  simp only [execute_workflow] at h
  cases hrs : runSteps wc.stop_on_error now wc.steps with
  | error e => rw [hrs] at h; simp at h
  | ok rs =>
    rw [hrs] at h
    dsimp only at h
    simp only [Except.ok.injEq] at h
    rw [← h] at hv
    obtain ⟨r, hr, hview⟩ := List.mem_map.mp hv
    have hst := runSteps_status wc.stop_on_error now wc.steps rs hrs r hr
    rw [← hview]
    rcases hst with hst | hst
    · refine ⟨Or.inl ?_, ?_⟩
      · show statusValue r.status = "completed"
        rw [hst]
        rfl
      · show statusValue r.status ≠ "cancelled"
        rw [hst]
        decide
    · refine ⟨Or.inr ?_, ?_⟩
      · show statusValue r.status = "failed"
        rw [hst]
        rfl
      · show statusValue r.status ≠ "cancelled"
        rw [hst]
        decide

/-- Witness for c5_no_cancelled_step_results: the one recorded entry of a
one-step run's report has a terminal, never cancelled, status. -/
theorem c5_no_cancelled_step_results_witness :
    ((StepResultView.mk (some "s1") "completed"
        (some [("transformed", JValue.b true)]) none).status = "completed" ∨
      (StepResultView.mk (some "s1") "completed"
        (some [("transformed", JValue.b true)]) none).status = "failed") ∧
    (StepResultView.mk (some "s1") "completed"
      (some [("transformed", JValue.b true)]) none).status ≠ "cancelled" :=
  c5_no_cancelled_step_results "wf"
    ⟨[⟨some "s1", some "transform", []⟩], none⟩ [] 0
    (WorkflowReport.mk "exec_0" "completed"
      [⟨some "s1", "completed", some [("transformed", JValue.b true)], none⟩]) rfl
    (StepResultView.mk (some "s1") "completed"
      (some [("transformed", JValue.b true)]) none) (List.mem_singleton_self _)

/-- any over a mapped list tests the composite predicate on the original
list (the library lemma restricts the map to an endofunction, so this is the
heterogeneous version). -/
theorem list_any_map {α β : Type} (f : α → β) (p : β → Bool) :
    ∀ l : List α, (l.map f).any p = l.any fun a => p (f a) := by
  intro l
  induction l with
  | nil => rfl
  | cons a t ih => simp [ih]

/-- With stop_on_error false the loop records one result per step. -/
theorem runSteps_length_stop_false (now : ℚ) :
    ∀ (steps : List StepDef) (rs : List StepResult),
      runSteps false now steps = Except.ok rs → rs.length = steps.length := by
  intro steps
  induction steps with
  | nil =>
    intro rs h
    simp only [runSteps, Except.ok.injEq] at h
    rw [← h]
    rfl
  | cons st rest ih =>
    intro rs h
    simp only [runSteps] at h
    cases hex : executeStep st now with
    | error e => rw [hex] at h; simp at h
    | ok r0 =>
      rw [hex] at h
      dsimp only at h
      rw [if_neg (by simp)] at h
      cases hrest : runSteps false now rest with
      | error e => rw [hrest] at h; simp at h
      | ok rs1 =>
        rw [hrest] at h
        dsimp only at h
        simp only [Except.ok.injEq] at h
        rw [← h]
        simp [ih rs1 hrest]

/-- A loop that records fewer results than there are steps halted early, and
the only halt is on a Failed result: some recorded result is Failed. -/
theorem runSteps_short_has_failed (stop : Bool) (now : ℚ) :
    ∀ (steps : List StepDef) (rs : List StepResult),
      runSteps stop now steps = Except.ok rs → rs.length ≠ steps.length →
      ∃ r ∈ rs, r.status = ExecutionStatus.failed := by
  intro steps
  induction steps with
  | nil =>
    intro rs h hne
    simp only [runSteps, Except.ok.injEq] at h
    rw [← h] at hne
    simp at hne
  | cons st rest ih =>
    intro rs h hne
    simp only [runSteps] at h
    cases hex : executeStep st now with
    | error e => rw [hex] at h; simp at h
    | ok r0 =>
      rw [hex] at h
      dsimp only at h
      by_cases hc : r0.status = ExecutionStatus.failed ∧ stop = true
      · rw [if_pos hc] at h
        simp only [Except.ok.injEq] at h
        rw [← h]
        exact ⟨r0, List.mem_singleton_self r0, hc.1⟩
      · rw [if_neg hc] at h
        cases hrest : runSteps stop now rest with
        | error e => rw [hrest] at h; simp at h
        | ok rs1 =>
          rw [hrest] at h
          dsimp only at h
          simp only [Except.ok.injEq] at h
          rw [← h] at hne ⊢
          have hne1 : rs1.length ≠ rest.length := by
            intro hlen
            apply hne
            simp [hlen]
          obtain ⟨r, hr, hrf⟩ := ih rs1 hrest hne1
          exact ⟨r, List.mem_cons_of_mem r0 hr, hrf⟩

/-- C6 (amended): whenever execute_workflow returns a report, its aggregate
status is "failed" when some recorded step result is Failed and "completed"
otherwise — "partial" is unreachable because every recorded result is
terminal; in particular a run that halted early (fewer recorded results than
steps) has status "failed", not "partial", since the only early halt is a
Failed step. -/
theorem c6_aggregate_status (wf : String) (wc : WorkflowConfig) (input : JObject)
    (now : ℚ) (rep : WorkflowReport)
    (h : execute_workflow wf wc input now = Except.ok rep) :
    (rep.status = if rep.step_results.any (fun v => decide (v.status = "failed"))
        then "failed" else "completed") ∧
    (rep.step_results.length ≠ wc.steps.length → rep.status = "failed") := by
  simp only [execute_workflow] at h
  cases hrs : runSteps wc.stop_on_error now wc.steps with
  | error e => rw [hrs] at h; simp at h
  | ok rs =>
    rw [hrs] at h
    dsimp only at h
    simp only [Except.ok.injEq] at h
    rw [← h]
    have hterm := runSteps_status wc.stop_on_error now wc.steps rs hrs
    have hany : ((rs.map StepResult.toView).any fun v => decide (v.status = "failed"))
        = rs.any fun r => decide (r.status = ExecutionStatus.failed) := by
      rw [list_any_map StepResult.toView (fun v => decide (v.status = "failed")) rs]
      have hfun : (fun r : StepResult => decide ((StepResult.toView r).status = "failed"))
          = fun r : StepResult => decide (r.status = ExecutionStatus.failed) := by
        funext r
        show decide (statusValue r.status = "failed") = decide (r.status = ExecutionStatus.failed)
        exact decide_eq_decide.mpr (statusValue_failed r.status)
      rw [hfun]
    by_cases hf : (rs.any fun r => decide (r.status = ExecutionStatus.failed)) = true
    · have hd : determine_final_status rs = "failed" := by
        rw [determine_final_status, if_pos hf]
      exact ⟨by show determine_final_status rs = _; rw [hany, if_pos hf]; exact hd,
        fun _ => hd⟩
    · have hf' : (rs.any fun r => decide (r.status = ExecutionStatus.failed)) = false := by
        revert hf
        cases rs.any fun r => decide (r.status = ExecutionStatus.failed) <;> simp
      have hall : (rs.all fun r => decide (r.status = ExecutionStatus.completed)) = true := by
        rw [List.all_eq_true]
        intro r hr
        rcases hterm r hr with hc | hfl
        · simp [hc]
        · exact absurd (List.any_eq_true.mpr ⟨r, hr, by simp [hfl]⟩) hf
      have hd : determine_final_status rs = "completed" := by
        rw [determine_final_status, hf']
        simp [hall]
      refine ⟨?_, ?_⟩
      · show determine_final_status rs = _
        rw [hany, hf']
        simp [hd]
      · intro hne
        exfalso
        have hlen : rs.length ≠ wc.steps.length := by
          simpa using hne
        obtain ⟨r, hr, hrf⟩ := runSteps_short_has_failed wc.stop_on_error now wc.steps rs hrs hlen
        exact absurd (List.any_eq_true.mpr ⟨r, hr, by simp [hrf]⟩) hf

/-- Counterexample to the claim that a run halted early with untouched
trailing steps yields status "partial": a two-step workflow whose first step
fails (a delay whose seconds value makes asyncio.sleep raise) halts after one
recorded result under the default stop_on_error, and the report's status is
"failed", not "partial". -/
theorem c6_counterexample :
    execute_workflow "wf"
        ⟨[⟨some "s1", some "delay", [("seconds", JValue.s "oops")]⟩,
          ⟨some "s2", some "transform", []⟩], none⟩ [] 0
      = Except.ok ⟨"exec_0", "failed",
          [⟨some "s1", "failed", none, some "TypeError: seconds must be a number"⟩]⟩ ∧
    ("failed" : String) ≠ "partial" ∧
    ([(⟨some "s1", "failed", none, some "TypeError: seconds must be a number"⟩ : StepResultView)]).length
      < ([⟨some "s1", some "delay", [("seconds", JValue.s "oops")]⟩,
          ⟨some "s2", some "transform", []⟩] : List StepDef).length :=
  ⟨rfl, by decide, by decide⟩

/-- Witness for c6_aggregate_status: the halted-early two-step run has a
Failed recorded result, so its aggregate status is "failed". -/
theorem c6_aggregate_status_witness :
    ((WorkflowReport.mk "exec_0" "failed"
        [⟨some "s1", "failed", none, some "TypeError: seconds must be a number"⟩]).status
      = if (WorkflowReport.mk "exec_0" "failed"
            [⟨some "s1", "failed", none, some "TypeError: seconds must be a number"⟩]).step_results.any
            (fun v => decide (v.status = "failed")) then "failed" else "completed") ∧
    ((WorkflowReport.mk "exec_0" "failed"
        [⟨some "s1", "failed", none, some "TypeError: seconds must be a number"⟩]).step_results.length
        ≠ (WorkflowConfig.mk
            [⟨some "s1", some "delay", [("seconds", JValue.s "oops")]⟩,
             ⟨some "s2", some "transform", []⟩] none).steps.length →
      (WorkflowReport.mk "exec_0" "failed"
        [⟨some "s1", "failed", none, some "TypeError: seconds must be a number"⟩]).status = "failed") :=
  c6_aggregate_status "wf"
    (WorkflowConfig.mk
      [⟨some "s1", some "delay", [("seconds", JValue.s "oops")]⟩,
       ⟨some "s2", some "transform", []⟩] none) [] 0
    (WorkflowReport.mk "exec_0" "failed"
      [⟨some "s1", "failed", none, some "TypeError: seconds must be a number"⟩]) rfl

/-- A step whose kind string parses to a declared StepType never makes
_execute_step raise: the handlers and the fallback all return a result. -/
theorem executeStep_ok (st : StepDef) (now : ℚ)
    (h : (StepType.ofValue st.type).isSome = true) :
    ∃ r, executeStep st now = Except.ok r := by
  simp only [executeStep]
  cases hty : StepType.ofValue st.type with
  | none => rw [hty] at h; simp at h
  | some ty =>
    dsimp only
    cases ty
    case delay =>
      cases hd : delayOutcome st.config with
      | ok v => exact ⟨_, rfl⟩
      | error e => exact ⟨_, rfl⟩
    all_goals exact ⟨_, rfl⟩

/-- When every step kind parses, the loop returns a result list instead of
raising. -/
theorem runSteps_ok (stop : Bool) (now : ℚ) :
    ∀ steps : List StepDef,
      (∀ st ∈ steps, (StepType.ofValue st.type).isSome = true) →
      ∃ rs, runSteps stop now steps = Except.ok rs := by
  intro steps
  induction steps with
  | nil => intro _; exact ⟨[], rfl⟩
  | cons st rest ih =>
    intro hk
    obtain ⟨r0, hr0⟩ := executeStep_ok st now (hk st (List.mem_cons_self st rest))
    obtain ⟨rs1, hrs1⟩ := ih fun s hs => hk s (List.mem_cons_of_mem st hs)
    simp only [runSteps, hr0]
    by_cases hc : r0.status = ExecutionStatus.failed ∧ stop = true
    · rw [if_pos hc]
      exact ⟨[r0], rfl⟩
    · rw [if_neg hc, hrs1]
      exact ⟨r0 :: rs1, rfl⟩

/-- The loop returns an empty result list only on an empty step list. -/
theorem runSteps_ok_nil (stop : Bool) (now : ℚ) :
    ∀ steps : List StepDef, runSteps stop now steps = Except.ok [] → steps = [] := by
  intro steps
  cases steps with
  | nil => intro _; rfl
  | cons st rest =>
    intro h
    simp only [runSteps] at h
    cases hex : executeStep st now with
    | error e => rw [hex] at h; simp at h
    | ok r0 =>
      rw [hex] at h
      dsimp only at h
      by_cases hc : r0.status = ExecutionStatus.failed ∧ stop = true
      · rw [if_pos hc] at h
        simp at h
      · rw [if_neg hc] at h
        cases hrest : runSteps stop now rest with
        | error e => rw [hrest] at h; simp at h
        | ok rs1 => rw [hrest] at h; dsimp only at h; simp at h

/-- With stop_on_error true the recorded results are a prefix of the steps:
no result but the last can be Failed, and when the loop recorded fewer
results than there are steps its last recorded result is Failed. -/
theorem runSteps_stop_true_shape (now : ℚ) :
    ∀ (steps : List StepDef) (rs : List StepResult),
      runSteps true now steps = Except.ok rs →
      rs.length ≤ steps.length ∧
      (∀ r ∈ rs.dropLast, r.status ≠ ExecutionStatus.failed) ∧
      (rs.length < steps.length →
        ∃ last, rs.getLast? = some last ∧ last.status = ExecutionStatus.failed) := by
  intro steps
  induction steps with
  | nil =>
    intro rs h
    simp only [runSteps, Except.ok.injEq] at h
    rw [← h]
    refine ⟨Nat.le_refl 0, ?_, ?_⟩
    · intro r hr
      simp at hr
    · intro hlt
      simp at hlt
  | cons st rest ih =>
    intro rs h
    simp only [runSteps] at h
    cases hex : executeStep st now with
    | error e => rw [hex] at h; simp at h
    | ok r0 =>
      rw [hex] at h
      dsimp only at h
      simp only [and_true] at h
      by_cases hc : r0.status = ExecutionStatus.failed
      · rw [if_pos hc] at h
        simp only [Except.ok.injEq] at h
        rw [← h]
        refine ⟨by simp, ?_, fun _ => ⟨r0, rfl, hc⟩⟩
        intro r hr
        simp at hr
      · rw [if_neg hc] at h
        have hnf : r0.status ≠ ExecutionStatus.failed := hc
        cases hrest : runSteps true now rest with
        | error e => rw [hrest] at h; simp at h
        | ok rs1 =>
          rw [hrest] at h
          dsimp only at h
          simp only [Except.ok.injEq] at h
          rw [← h]
          obtain ⟨hlen, hdrop, hshort⟩ := ih rs1 hrest
          refine ⟨by simp; omega, ?_, ?_⟩
          · intro r hr
            cases rs1 with
            | nil => simp at hr
            | cons x xs =>
              rw [List.dropLast_cons₂] at hr
              rcases List.mem_cons.mp hr with h0 | h1
              · rw [h0]; exact hnf
              · exact hdrop r h1
          · intro hlt
            cases rs1 with
            | nil =>
              have hrest0 := runSteps_ok_nil true now rest hrest
              rw [hrest0] at hlt
              simp at hlt
            | cons x xs =>
              have hlt1 : (x :: xs).length < rest.length := by
                simp at hlt ⊢
                omega
              obtain ⟨last, hl, hlf⟩ := hshort hlt1
              refine ⟨last, ?_, hlf⟩
              rw [List.getLast?_cons_cons]
              exact hl

/-- C8: when every step kind is declared (so the run returns a report): with
stop_on_error false every step produces one entry in step_results; with
stop_on_error true (the default when no policy is given) the loop halts at
the first Failed result, so no recorded entry except the last is "failed",
and a report shorter than the step list ends in a "failed" entry — the
subsequent steps are absent. -/
theorem c8_stop_on_error_policy (wf : String) (wc : WorkflowConfig) (input : JObject)
    (now : ℚ)
    (hk : ∀ st ∈ wc.steps, (StepType.ofValue st.type).isSome = true) :
    ∃ rep, execute_workflow wf wc input now = Except.ok rep ∧
      (wc.stop_on_error = false → rep.step_results.length = wc.steps.length) ∧
      (wc.stop_on_error = true →
        rep.step_results.length ≤ wc.steps.length ∧
        (∀ v ∈ rep.step_results.dropLast, v.status ≠ "failed") ∧
        (rep.step_results.length < wc.steps.length →
          ∃ last, rep.step_results.getLast? = some last ∧ last.status = "failed")) := by
  obtain ⟨rs, hrs⟩ := runSteps_ok wc.stop_on_error now wc.steps hk
  refine ⟨⟨"exec_" ++ toString now, determine_final_status rs, rs.map StepResult.toView⟩,
    ?_, ?_, ?_⟩
  · simp only [execute_workflow, hrs]
  · intro hstop
    rw [hstop] at hrs
    show (rs.map StepResult.toView).length = wc.steps.length
    rw [List.length_map]
    exact runSteps_length_stop_false now wc.steps rs hrs
  · intro hstop
    rw [hstop] at hrs
    obtain ⟨hlen, hdrop, hshort⟩ := runSteps_stop_true_shape now wc.steps rs hrs
    refine ⟨?_, ?_, ?_⟩
    · show (rs.map StepResult.toView).length ≤ wc.steps.length
      rw [List.length_map]
      exact hlen
    · intro v hv
      show v.status ≠ "failed"
      rw [← List.map_dropLast] at hv
      obtain ⟨r, hr, hview⟩ := List.mem_map.mp hv
      rw [← hview]
      intro hvf
      exact hdrop r hr ((statusValue_failed r.status).mp hvf)
    · intro hlt
      rw [show ((rs.map StepResult.toView).length = rs.length) from List.length_map rs StepResult.toView] at hlt
      obtain ⟨last, hl, hlf⟩ := hshort hlt
      refine ⟨last.toView, ?_, ?_⟩
      · rw [List.getLast?_map, hl]
        rfl
      · show statusValue last.status = "failed"
        rw [hlf]
        rfl

/-- Witness for c8_stop_on_error_policy: a two-step workflow whose first step
fails, under the default stop policy. -/
theorem c8_stop_on_error_policy_witness :
    ∃ rep, execute_workflow "wf"
        (WorkflowConfig.mk
          [⟨some "a", some "delay", [("seconds", JValue.s "nope")]⟩,
           ⟨some "b", some "condition", []⟩] none) [] 0 = Except.ok rep ∧
      ((WorkflowConfig.mk
          [⟨some "a", some "delay", [("seconds", JValue.s "nope")]⟩,
           ⟨some "b", some "condition", []⟩] none).stop_on_error = false →
        rep.step_results.length
          = (WorkflowConfig.mk
              [⟨some "a", some "delay", [("seconds", JValue.s "nope")]⟩,
               ⟨some "b", some "condition", []⟩] none).steps.length) ∧
      ((WorkflowConfig.mk
          [⟨some "a", some "delay", [("seconds", JValue.s "nope")]⟩,
           ⟨some "b", some "condition", []⟩] none).stop_on_error = true →
        rep.step_results.length
          ≤ (WorkflowConfig.mk
              [⟨some "a", some "delay", [("seconds", JValue.s "nope")]⟩,
               ⟨some "b", some "condition", []⟩] none).steps.length ∧
        (∀ v ∈ rep.step_results.dropLast, v.status ≠ "failed") ∧
        (rep.step_results.length
            < (WorkflowConfig.mk
                [⟨some "a", some "delay", [("seconds", JValue.s "nope")]⟩,
                 ⟨some "b", some "condition", []⟩] none).steps.length →
          ∃ last, rep.step_results.getLast? = some last ∧ last.status = "failed")) :=
  c8_stop_on_error_policy "wf"
    (WorkflowConfig.mk
      [⟨some "a", some "delay", [("seconds", JValue.s "nope")]⟩,
       ⟨some "b", some "condition", []⟩] none) [] 0 (by decide)
